import Mathlib

/-!
Verification of the LLMO core against its specification.

The development embeds, as executable Lean definitions:
  * the startup and fatal-error handling of the host program
    (from src/server.ts, the repository source),
  * the stdio JSON-RPC pending-request lifecycle, the process
    supervisor state machine, shutdownAll, and the orchestration
    engine loop (modelled from the specification, since only their
    caller server.ts is in the repository source tree),
and proves the specified properties about them.
-/

namespace LLMO

/-! ## Host program startup (src/server.ts) -/

/-- A JavaScript-style error value as caught in `startServer`: it may carry
a `code` field, which the catch block inspects for `"EADDRINUSE"`. -/
structure JsError where
  message : String
  code : Option String
deriving Repr, DecidableEq

/-- The result of an awaited step: normal return or a thrown error. -/
abbrev JsResult (α : Type) := Except JsError α

/-- `shutdownMCPs` from `src/server.ts` lines 25-33: awaits
`mcpManager.shutdownAllMCPs()` inside a try/catch whose catch clause only
logs, so the helper always returns normally.  The argument is the outcome
of the awaited `shutdownAllMCPs()` call. -/
def shutdownMCPs (shutdownAllOutcome : JsResult Unit) : JsResult Unit :=
  match shutdownAllOutcome with
  | .ok _ => .ok ()
  | .error _ => .ok ()

/-- The environment a run of `startServer` executes in: the outcome of each
awaited fallible step.  Config values, route handlers and similar data do
not influence the control flow being verified, so each step is recorded as
ok-or-thrown. -/
structure StartupEnv where
  /-- Outcome of `loadConfig(DEFAULT_CONFIG_PATH)` (line 46). -/
  loadConfig : JsResult Unit
  /-- Outcome of `mcpManager.initializeMCPs(config.mcpServers)` (line 56). -/
  initMCPs : JsResult Unit
  /-- Outcome of the fastify `register` calls for CORS and the routes
  (lines 67-71). -/
  registerRoutes : JsResult Unit
  /-- Outcome of `server.listen(...)` (line 75). -/
  listen : JsResult Unit
  /-- Outcome of `mcpManager.shutdownAllMCPs()` if invoked during fatal
  error handling. -/
  shutdownAllMCPs : JsResult Unit

/-- Observable outcome of `startServer`: either the server is left running,
or `process.exit(code)` was reached; `shutdownAttempted` records whether
`shutdownMCPs` was invoked on the way. -/
inductive ServerOutcome
  | running
  | exited (code : Nat) (shutdownAttempted : Bool)
deriving Repr, DecidableEq

/-- The port-conflict test of `src/server.ts` line 101: the caught value
carries a `code` field equal to `"EADDRINUSE"`. -/
def isPortConflict (e : JsError) : Bool :=
  e.code = some "EADDRINUSE"

/-- The inner try around `server.listen` (lines 74-87): an `EADDRINUSE`
failure is rewrapped with a message and the same code, any other failure
is rethrown unchanged. -/
def listenStep (r : JsResult Unit) : JsResult Unit :=
  match r with
  | .ok _ => .ok ()
  | .error e =>
    if isPortConflict e then
      .error { message := "Port is already in use by another process."
               code := some "EADDRINUSE" }
    else
      .error e

/-- The catch block of `startServer` (lines 99-135): picks exit code 2 for
a port conflict and 1 otherwise, and runs `shutdownMCPs` first exactly when
`mcpManager` is non-null.  A thrown error from `shutdownMCPs` would escape
the catch block, hence the `JsResult` return type. -/
def catchHandler (managerCreated : Bool) (shutdownAllOutcome : JsResult Unit)
    (e : JsError) : JsResult ServerOutcome :=
  let exitCode : Nat := if isPortConflict e then 2 else 1
  if managerCreated then
    match shutdownMCPs shutdownAllOutcome with
    | .ok _ => .ok (.exited exitCode true)
    | .error e2 => .error e2
  else
    .ok (.exited exitCode false)

/-- `startServer` from `src/server.ts` lines 38-137: loads the config,
creates the MCP manager, initializes the MCP processes, registers routes,
listens; any thrown error lands in the catch block.  `mcpManager` is null
exactly when `loadConfig` threw, since the manager is constructed on the
line after it and its constructor does not throw. -/
def startServer (env : StartupEnv) : JsResult ServerOutcome :=
  match env.loadConfig with
  | .error e => catchHandler false env.shutdownAllMCPs e
  | .ok _ =>
    match env.initMCPs with
    | .error e => catchHandler true env.shutdownAllMCPs e
    | .ok _ =>
      match env.registerRoutes with
      | .error e => catchHandler true env.shutdownAllMCPs e
      | .ok _ =>
        match listenStep env.listen with
        | .error e => catchHandler true env.shutdownAllMCPs e
        | .ok _ => .ok .running

/-- The error the catch block of `startServer` receives, if any: the first
failing step, with the `listen` rewrapping applied. -/
def failedStep (env : StartupEnv) : Option JsError :=
  match env.loadConfig with
  | .error e => some e
  | .ok _ =>
    match env.initMCPs with
    | .error e => some e
    | .ok _ =>
      match env.registerRoutes with
      | .error e => some e
      | .ok _ =>
        match listenStep env.listen with
        | .error e => some e
        | .ok _ => none

lemma catchHandler_true (sd : JsResult Unit) (e : JsError) :
    catchHandler true sd e =
      .ok (.exited (if isPortConflict e then 2 else 1) true) := by
  cases sd <;> rfl

lemma startServer_fatal_fields (im rr li sd : JsResult Unit) (e : JsError)
    (hf : failedStep ⟨.ok (), im, rr, li, sd⟩ = some e) :
    startServer ⟨.ok (), im, rr, li, sd⟩ =
      .ok (.exited (if isPortConflict e then 2 else 1) true) := by
  cases im with
  | error e1 =>
    have h1 : e1 = e := by simpa [failedStep] using hf
    subst h1
    show catchHandler true sd e1 = _
    exact catchHandler_true sd e1
  | ok u =>
    cases u
    cases rr with
    | error e2 =>
      have h2 : e2 = e := by simpa [failedStep] using hf
      subst h2
      show catchHandler true sd e2 = _
      exact catchHandler_true sd e2
    | ok u2 =>
      cases u2
      cases hl : listenStep li with
      | error e3 =>
        have h3 : e3 = e := by
          have hf2 := hf
          simp only [failedStep, hl] at hf2
          exact Option.some.inj hf2
        subst h3
        show (match listenStep li with
              | .error e => catchHandler true sd e
              | .ok _ => .ok .running) = _
        rw [hl]
        exact catchHandler_true sd e3
      | ok u3 =>
        exfalso
        simp only [failedStep, hl] at hf
        exact Option.noConfusion hf

/-- Any fatal error after the config loaded leads to an exit with the
designated code, with shutdown attempted. -/
lemma startServer_fatal (env : StartupEnv) (e : JsError)
    (hc : env.loadConfig = .ok ())
    (hf : failedStep env = some e) :
    startServer env = .ok (.exited (if isPortConflict e then 2 else 1) true) := by
  obtain ⟨lc, im, rr, li, sd⟩ := env
  have hlc : lc = .ok () := hc
  subst hlc
  exact startServer_fatal_fields im rr li sd e hf

/-- A concrete environment whose config load fails before the MCP manager
exists. -/
def configFailEnv : StartupEnv :=
  { loadConfig := .error { message := "cannot read config.yaml", code := none }
    initMCPs := .ok ()
    registerRoutes := .ok ()
    listen := .ok ()
    shutdownAllMCPs := .ok () }

/-- A concrete environment where everything succeeds until `listen` fails
with `EADDRINUSE`. -/
def portConflictEnv : StartupEnv :=
  { loadConfig := .ok ()
    initMCPs := .ok ()
    registerRoutes := .ok ()
    listen := .error { message := "listen EADDRINUSE", code := some "EADDRINUSE" }
    shutdownAllMCPs := .ok () }

/-- A concrete environment where MCP initialization fails and the later
MCP shutdown attempt itself fails. -/
def initFailEnv : StartupEnv :=
  { loadConfig := .ok ()
    initMCPs := .error { message := "provider failed to reach Ready", code := none }
    registerRoutes := .ok ()
    listen := .ok ()
    shutdownAllMCPs := .error { message := "kill failed", code := none } }

/-- C4 counterexample: when `loadConfig` itself throws, `startServer` exits
with code 1 without attempting any MCP shutdown, so the claim that on every
fatal startup error `shutdownAll` is attempted before the exit is false. -/
theorem C4_counterexample :
    failedStep configFailEnv =
      some { message := "cannot read config.yaml", code := none } ∧
    startServer configFailEnv = .ok (.exited 1 false) := by
  exact ⟨rfl, rfl⟩

/-- C4 (amended): on every fatal startup error occurring after the config
loaded (so the MCP manager exists), MCP shutdown is attempted before the
process exits, and the exit code is 2 when the caught error carries the
`EADDRINUSE` code and 1 for any other failure. -/
theorem C4_amended_shutdown_and_exit_codes (env : StartupEnv) (e : JsError)
    (hc : env.loadConfig = .ok ())
    (hf : failedStep env = some e) :
    startServer env = .ok (.exited (if isPortConflict e then 2 else 1) true) :=
  startServer_fatal env e hc hf

/-- Witness for the amended C4: the port-conflict environment exits with
code 2 after attempting shutdown. -/
theorem C4_amended_witness :
    startServer portConflictEnv = .ok (.exited 2 true) := by
  have h := C4_amended_shutdown_and_exit_codes portConflictEnv
    { message := "Port is already in use by another process."
      code := some "EADDRINUSE" } rfl rfl
  simpa [isPortConflict] using h

/-- C5: if `initializeMCPs` throws during startup, the boot is aborted: the
outcome is an exit with a failure code after attempting MCP shutdown, the
server never reaches the running state, and the outcome is unchanged
whatever `listen` would have done (the HTTP server is never started). -/
theorem C5_init_failure_aborts_boot (env : StartupEnv) (e : JsError)
    (hc : env.loadConfig = .ok ())
    (hi : env.initMCPs = .error e) :
    startServer env = .ok (.exited (if isPortConflict e then 2 else 1) true) ∧
    startServer env ≠ .ok .running ∧
    (∀ l : JsResult Unit, startServer { env with listen := l } = startServer env) := by
  obtain ⟨lc, im, rr, li, sd⟩ := env
  have hlc : lc = .ok () := hc
  have him : im = .error e := hi
  subst hlc
  subst him
  refine ⟨?_, ?_, ?_⟩
  · show catchHandler true sd e = _
    exact catchHandler_true sd e
  · show catchHandler true sd e ≠ _
    rw [catchHandler_true sd e]
    simp
  · intro l
    rfl

/-- Witness for C5: a concrete environment whose MCP initialization fails
exits with code 1 after attempting shutdown and never runs. -/
theorem C5_witness :
    startServer initFailEnv = .ok (.exited 1 true) ∧
    startServer initFailEnv ≠ .ok .running := by
  have h := C5_init_failure_aborts_boot initFailEnv
    { message := "provider failed to reach Ready", code := none } rfl rfl
  exact ⟨by simpa [isPortConflict] using h.1, h.2.1⟩

/-- C10: `shutdownMCPs` never throws, whatever `shutdownAllMCPs` does; so
on every fatal startup path where the MCP manager was created, control
reaches `process.exit` with the designated code (2 for port conflict,
1 otherwise), even when shutting down the MCP processes itself fails. -/
theorem C10_shutdownMCPs_never_throws (r : JsResult Unit) (env : StartupEnv)
    (e : JsError)
    (hc : env.loadConfig = .ok ())
    (hf : failedStep env = some e) :
    shutdownMCPs r = .ok () ∧
    startServer env = .ok (.exited (if isPortConflict e then 2 else 1) true) := by
  constructor
  · cases r <;> rfl
  · exact startServer_fatal env e hc hf

/-- Witness for C10: even with a failing `shutdownAllMCPs`, the init
failure environment reaches exit code 1 with shutdown attempted. -/
theorem C10_witness :
    shutdownMCPs (.error { message := "kill failed", code := none }) = .ok () ∧
    startServer initFailEnv = .ok (.exited 1 true) := by
  have h := C10_shutdownMCPs_never_throws
    (.error { message := "kill failed", code := none }) initFailEnv
    { message := "provider failed to reach Ready", code := none } rfl rfl
  exact ⟨h.1, by simpa [isPortConflict] using h.2⟩

/-! ## Stdio JSON-RPC client: pending request lifecycle

Modelled from the spec (section 4.2): the client code itself is not in the
repository source tree, only its construction in server.ts; the definitions
below follow the specification of `call` and of the read path. -/

/-- Modelled from the spec: the outcome of one `call`.  `success` is a
matching response with a result; `communicationError` is a matching
response carrying an error object (`MCP_COMMUNICATION_ERROR`); `timeout`
is the response timeout elapsing (`MCP_TIMEOUT`); `unavailable` is the
owning process transitioning to Dead (`MCP_UNAVAILABLE`);
`invalidResponse` is an unparseable line on the stream while the request
was awaiting a response (`MCP_INVALID_RESPONSE`). -/
inductive CallOutcome
  | success (payload : String)
  | communicationError
  | timeout
  | unavailable
  | invalidResponse
deriving Repr, DecidableEq

/-- Modelled from the spec: a PendingRequest is waiting or has been
destroyed exactly once with its outcome. -/
inductive PendingState
  | waiting
  | resolved (o : CallOutcome)
deriving Repr, DecidableEq

/-- Modelled from the spec: the three watches armed by `call` — a parsed
response line bearing some id and an error flag, the timeout firing, and
the owning process transitioning to Dead. -/
inductive CallEvent
  | response (rid : Nat) (isError : Bool) (payload : String)
  | timeoutFired
  | processDied
deriving Repr, DecidableEq

/-- Modelled from the spec: how one pending request with id `myId` reacts
to an event.  A request that is already resolved never changes again
(whichever watch fired first cancelled the other two); a waiting request
resolves on a response with matching id (result or error object), on its
timeout, or on process death; a response with a different id leaves it
waiting. -/
def pendingStep (myId : Nat) (s : PendingState) (e : CallEvent) : PendingState :=
  match s with
  | .resolved o => .resolved o
  | .waiting =>
    match e with
    | .response rid isErr payload =>
      if rid = myId then
        if isErr then .resolved .communicationError
        else .resolved (.success payload)
      else .waiting
    | .timeoutFired => .resolved .timeout
    | .processDied => .resolved .unavailable

/-- The outcome an event would settle a waiting request with id `myId` to,
if any. -/
def eventOutcome (myId : Nat) : CallEvent → Option CallOutcome
  | .response rid isErr payload =>
    if rid = myId then
      some (if isErr then .communicationError else .success payload)
    else none
  | .timeoutFired => some .timeout
  | .processDied => some .unavailable

/-- Run a pending request through a sequence of events. -/
def runPending (myId : Nat) (s : PendingState) (es : List CallEvent) : PendingState :=
  es.foldl (pendingStep myId) s

lemma runPending_resolved (myId : Nat) (o : CallOutcome) (es : List CallEvent) :
    runPending myId (.resolved o) es = .resolved o := by
  induction es with
  | nil => rfl
  | cons e rest ih => simpa [runPending, List.foldl_cons, pendingStep] using ih

lemma pendingStep_waiting (myId : Nat) (e : CallEvent) :
    pendingStep myId .waiting e =
      (match eventOutcome myId e with
       | some o => .resolved o
       | none => .waiting) := by
  cases e with
  | response rid isErr payload =>
    by_cases h : rid = myId <;> cases isErr <;> simp [pendingStep, eventOutcome, h]
  | timeoutFired => rfl
  | processDied => rfl

/-- The run of a waiting request is decided by the first settling event. -/
lemma runPending_waiting_eq (myId : Nat) (es : List CallEvent) :
    runPending myId .waiting es =
      (match es.findSome? (eventOutcome myId) with
       | some o => .resolved o
       | none => .waiting) := by
  induction es with
  | nil => rfl
  | cons e rest ih =>
    rw [List.findSome?_cons]
    cases ho : eventOutcome myId e with
    | some o =>
      have hstep : pendingStep myId .waiting e = .resolved o := by
        rw [pendingStep_waiting, ho]
      show runPending myId (pendingStep myId .waiting e) rest = _
      rw [hstep, runPending_resolved]
    | none =>
      have hstep : pendingStep myId .waiting e = .waiting := by
        rw [pendingStep_waiting, ho]
      show runPending myId (pendingStep myId .waiting e) rest = _
      rw [hstep, ih]

/-- C1: a call is settled by exactly the first of the three watches to
fire: the run of a waiting pending request equals the outcome of the first
settling event — a matching response resolves with its result, or with
`MCP_COMMUNICATION_ERROR` if it carries an error object; a timeout firing
resolves with `MCP_TIMEOUT`; process death resolves with
`MCP_UNAVAILABLE` — and once resolved, no later event changes the outcome,
so no call resolves twice. -/
theorem C1_call_resolves_exactly_once (myId : Nat) (es extra : List CallEvent) :
    runPending myId .waiting es =
      (match es.findSome? (eventOutcome myId) with
       | some o => .resolved o
       | none => .waiting) ∧
    (∀ o : CallOutcome, runPending myId (.resolved o) extra = .resolved o) ∧
    eventOutcome myId .timeoutFired = some .timeout ∧
    eventOutcome myId .processDied = some .unavailable ∧
    (∀ isErr payload, eventOutcome myId (.response myId isErr payload) =
      some (if isErr then .communicationError else .success payload)) := by
  refine ⟨runPending_waiting_eq myId es, fun o => runPending_resolved myId o extra,
    rfl, rfl, fun isErr payload => ?_⟩
  simp [eventOutcome]

/-! ## Stdio JSON-RPC client: demultiplexing by id -/

/-- A parsed response line: id, error flag, payload. -/
abbrev ResponseLine := Nat × Bool × String

/-- The event a parsed response line produces. -/
def respEvent (l : ResponseLine) : CallEvent :=
  .response l.1 l.2.1 l.2.2

/-- A pending-request table of one process: ids with their states. -/
abbrev ProcTable := List (Nat × PendingState)

/-- Modelled from the spec: delivering one parsed response line to a
pending table — every entry reacts with its own id. -/
def deliverLine (tbl : ProcTable) (l : ResponseLine) : ProcTable :=
  tbl.map fun en => (en.1, pendingStep en.1 en.2 (respEvent l))

/-- Deliver a sequence of response lines in arrival order. -/
def deliverResponses (tbl : ProcTable) (lines : List ResponseLine) : ProcTable :=
  lines.foldl deliverLine tbl

lemma deliverResponses_eq_map (tbl : ProcTable) (lines : List ResponseLine) :
    deliverResponses tbl lines =
      tbl.map fun en => (en.1, runPending en.1 en.2 (lines.map respEvent)) := by
  induction lines generalizing tbl with
  | nil => simp [deliverResponses, runPending]
  | cons l rest ih =>
    show deliverResponses (deliverLine tbl l) rest = _
    rw [ih]
    simp only [deliverLine, List.map_map]
    rfl

lemma findSome?_eq_of_mem_of_unique {α β : Type} (f : α → Option β)
    (l : List α) (a : α) (b : β)
    (ha : a ∈ l) (hfa : f a = some b)
    (huniq : ∀ x ∈ l, f x ≠ none → f x = some b) :
    l.findSome? f = some b := by
  induction l with
  | nil => cases ha
  | cons x rest ih =>
    rw [List.findSome?_cons]
    cases hx : f x with
    | some c =>
      have : f x = some b := huniq x (List.mem_cons_self x rest) (by simp [hx])
      rw [hx] at this
      exact this
    | none =>
      rcases List.mem_cons.mp ha with rfl | hmem
      · rw [hx] at hfa; exact Option.noConfusion hfa
      · exact ih hmem fun y hy => huniq y (List.mem_cons_of_mem x hy)

/-- C2: responses are matched to pending requests by id, never by arrival
order: whatever the order of the response lines (each id appearing on at
most one line), a waiting request resolves with the response bearing its
own id — with the result payload, or with a communication error when the
response carries an error object. -/
theorem C2_responses_matched_by_id (tbl : ProcTable) (lines : List ResponseLine)
    (hids : (lines.map fun l => l.1).Nodup)
    (i : Nat) (isErr : Bool) (p : String)
    (hpend : (i, PendingState.waiting) ∈ tbl)
    (hline : (i, isErr, p) ∈ lines) :
    (i, PendingState.resolved
        (if isErr then .communicationError else .success p))
      ∈ deliverResponses tbl lines := by
  rw [deliverResponses_eq_map]
  have himg := List.mem_map_of_mem
    (fun en : Nat × PendingState => (en.1, runPending en.1 en.2 (lines.map respEvent)))
    hpend
  have hrun : runPending i PendingState.waiting (lines.map respEvent) =
      PendingState.resolved (if isErr then .communicationError else .success p) := by
    rw [runPending_waiting_eq, List.findSome?_map]
    have hfs : lines.findSome? (eventOutcome i ∘ respEvent) =
        some (if isErr then CallOutcome.communicationError else .success p) := by
      apply findSome?_eq_of_mem_of_unique _ _ (i, isErr, p)
      · exact hline
      · simp [respEvent, eventOutcome]
      · intro x hx hne
        have hx1 : x.1 = i := by
          by_contra hcon
          exact hne (by simp [respEvent, eventOutcome, hcon])
        have hxeq : x = (i, isErr, p) := by
          exact List.inj_on_of_nodup_map hids hx hline (by simp [hx1])
        subst hxeq
        simp [respEvent, eventOutcome]
    rw [hfs]
  simpa [hrun] using himg

/-- Witness for C2: two concurrent calls with ids 1 and 2 whose responses
arrive in reverse order; call 1 still resolves with the payload of the
response bearing id 1. -/
theorem C2_witness :
    ((1 : Nat), PendingState.resolved (CallOutcome.success "a"))
      ∈ deliverResponses [(1, .waiting), (2, .waiting)]
          [(2, false, "b"), (1, false, "a")] := by
  have h := C2_responses_matched_by_id
    [(1, .waiting), (2, .waiting)] [(2, false, "b"), (1, false, "a")]
    (by decide) 1 false "a" (by decide) (by decide)
  simpa using h

/-! ## Stdio JSON-RPC client: the read loop and malformed lines -/

/-- Modelled from the spec: one line read from a process output stream,
after the parse attempt — either a parsed JSON-RPC response or an
unparseable line. -/
inductive RawLine
  | valid (rid : Nat) (isError : Bool) (payload : String)
  | malformed (raw : String)
deriving Repr, DecidableEq

/-- The per-process pending tables of the client, keyed by process name. -/
abbrev ClientState := List (String × ProcTable)

/-- Modelled from the spec: an unparseable line fails every request
awaiting a response at that moment with `MCP_INVALID_RESPONSE`; requests
already settled are untouched. -/
def failWaiting (tbl : ProcTable) : ProcTable :=
  tbl.map fun en =>
    (en.1, match en.2 with
           | .waiting => .resolved .invalidResponse
           | s => s)

/-- Modelled from the spec: the read loop of one process handles a line —
a parsed response is delivered to the pending table by id, an unparseable
line is logged and discarded after failing the requests awaiting a
response.  The function is total: no line crashes the client. -/
def handleLineFor (tbl : ProcTable) : RawLine → ProcTable
  | .valid rid isErr payload => deliverLine tbl (rid, isErr, payload)
  | .malformed _ => failWaiting tbl

/-- A line arriving on the output stream of process `proc` touches only
the pending table of that process. -/
def handleLine (st : ClientState) (proc : String) (line : RawLine) : ClientState :=
  st.map fun en =>
    if en.1 = proc then (en.1, handleLineFor en.2 line) else en

/-- Modelled from the spec: `call` registers a new PendingRequest on the
owning process before writing the request. -/
def registerCall (st : ClientState) (proc : String) (rid : Nat) : ClientState :=
  st.map fun en =>
    if en.1 = proc then (en.1, en.2 ++ [(rid, PendingState.waiting)]) else en

/-- C6: an unparseable line on the output stream of process `p` fails
exactly the requests of `p` awaiting a response at that moment with
`MCP_INVALID_RESPONSE` (already settled entries keep their outcome), does
not crash the client (the handler is total and returns the new state),
leaves the tables of all other processes untouched, and well-formed lines
that follow on the same stream are still processed and matched normally:
a request registered afterwards resolves with its own matching response. -/
theorem C6_malformed_line_contained (st : ClientState) (p : String) (raw : String) :
    (∀ tbl i, (p, tbl) ∈ st → (i, PendingState.waiting) ∈ tbl →
       (p, failWaiting tbl) ∈ handleLine st p (.malformed raw) ∧
       (i, PendingState.resolved .invalidResponse) ∈ failWaiting tbl) ∧
    (∀ tbl i o, (i, PendingState.resolved o) ∈ tbl →
       (i, PendingState.resolved o) ∈ failWaiting tbl) ∧
    (∀ en, en ∈ st → en.1 ≠ p → en ∈ handleLine st p (.malformed raw)) ∧
    (∀ tbl rid pay, (p, tbl) ∈ st →
       (p, deliverLine (failWaiting tbl ++ [(rid, PendingState.waiting)]) (rid, false, pay))
         ∈ handleLine (registerCall (handleLine st p (.malformed raw)) p rid)
             p (.valid rid false pay) ∧
       (rid, PendingState.resolved (.success pay))
         ∈ deliverLine (failWaiting tbl ++ [(rid, PendingState.waiting)])
             (rid, false, pay)) := by
  refine ⟨?_, ?_, ?_, ?_⟩
  · intro tbl i hp hw
    constructor
    · have h := List.mem_map_of_mem
        (fun en : String × ProcTable =>
          if en.1 = p then (en.1, handleLineFor en.2 (.malformed raw)) else en) hp
      simpa [handleLine, handleLineFor] using h
    · have h := List.mem_map_of_mem
        (fun en : Nat × PendingState =>
          (en.1, match en.2 with
                 | PendingState.waiting => PendingState.resolved .invalidResponse
                 | s => s)) hw
      simpa [failWaiting] using h
  · intro tbl i o hr
    have h := List.mem_map_of_mem
      (fun en : Nat × PendingState =>
        (en.1, match en.2 with
               | PendingState.waiting => PendingState.resolved .invalidResponse
               | s => s)) hr
    simpa [failWaiting] using h
  · intro en hen hne
    have h := List.mem_map_of_mem
      (fun en : String × ProcTable =>
        if en.1 = p then (en.1, handleLineFor en.2 (.malformed raw)) else en) hen
    simpa [handleLine, if_neg hne] using h
  · intro tbl rid pay hp
    constructor
    · have h1 : (p, failWaiting tbl) ∈ handleLine st p (.malformed raw) := by
        have h := List.mem_map_of_mem
          (fun en : String × ProcTable =>
            if en.1 = p then (en.1, handleLineFor en.2 (.malformed raw)) else en) hp
        simpa [handleLine, handleLineFor] using h
      have h2 : (p, failWaiting tbl ++ [(rid, PendingState.waiting)])
          ∈ registerCall (handleLine st p (.malformed raw)) p rid := by
        have h := List.mem_map_of_mem
          (fun en : String × ProcTable =>
            if en.1 = p then (en.1, en.2 ++ [(rid, PendingState.waiting)]) else en) h1
        simpa [registerCall] using h
      have h := List.mem_map_of_mem
        (fun en : String × ProcTable =>
          if en.1 = p then (en.1, handleLineFor en.2 (.valid rid false pay)) else en) h2
      simpa [handleLine, handleLineFor] using h
    · simp only [deliverLine, List.map_append, List.map_cons, List.map_nil]
      apply List.mem_append_right
      simp [pendingStep, respEvent]

/-- Witness for C6: a concrete client with processes alpha and beta, a
malformed line on alpha failing its waiting request with
`MCP_INVALID_RESPONSE`, beta untouched, and a later well-formed line on
alpha matched normally. -/
theorem C6_witness :
    (("alpha", failWaiting [(1, PendingState.waiting)])
       ∈ handleLine [("alpha", [(1, .waiting)]), ("beta", [(2, .waiting)])]
           "alpha" (.malformed "oops") ∧
     ((1 : Nat), PendingState.resolved .invalidResponse)
       ∈ failWaiting [(1, PendingState.waiting)]) ∧
    ("beta", [((2 : Nat), PendingState.waiting)])
       ∈ handleLine [("alpha", [(1, .waiting)]), ("beta", [(2, .waiting)])]
           "alpha" (.malformed "oops") ∧
    ((3 : Nat), PendingState.resolved (.success "ok"))
       ∈ deliverLine (failWaiting [(1, PendingState.waiting)]
           ++ [(3, PendingState.waiting)]) (3, false, "ok") := by
  have h := C6_malformed_line_contained
    [("alpha", [(1, .waiting)]), ("beta", [(2, .waiting)])] "alpha" "oops"
  refine ⟨h.1 [(1, .waiting)] 1 (by decide) (by decide), ?_, ?_⟩
  · exact h.2.2.1 ("beta", [(2, .waiting)]) (by decide) (by decide)
  · exact (h.2.2.2 [(1, .waiting)] 3 "ok" (by decide)).2

/-! ## Process supervisor

Modelled from the spec (sections 3 and 4.1): the supervisor code is not in
the repository source tree, only its construction and use in server.ts. -/

/-- Modelled from the spec: the state of a ProcessHandle. -/
inductive PState
  | starting
  | ready
  | shuttingDown
  | dead
deriving Repr, DecidableEq, Inhabited

/-- Modelled from the spec: the events a handle reacts to — successful
launch confirmation, a supervised termination request, process exit
(voluntary or forced), and an unrecoverable I/O error. -/
inductive PEvent
  | launchConfirmed
  | terminationRequested
  | exited
  | ioError
deriving Repr, DecidableEq

/-- Modelled from the spec: the handle transition system.  Dead is
terminal; exit or unrecoverable I/O error moves any state to dead;
launch confirmation moves starting to ready; a supervised termination
request moves a live handle to shuttingDown. -/
def pstep : PState → PEvent → PState
  | .dead, _ => .dead
  | _, .exited => .dead
  | _, .ioError => .dead
  | .starting, .launchConfirmed => .ready
  | _, .terminationRequested => .shuttingDown
  | s, _ => s

/-- Run a handle through a sequence of events. -/
def runP (s : PState) (es : List PEvent) : PState :=
  es.foldl pstep s

/-- The number of transitions into the ready state along a trace. -/
def readyEntries : PState → List PEvent → Nat
  | _, [] => 0
  | s, e :: es =>
    (if s ≠ PState.ready ∧ pstep s e = PState.ready then 1 else 0) +
      readyEntries (pstep s e) es

/-- Modelled from the spec: the supervisor launches exactly one handle per
configured provider, each starting in the starting state. -/
def startAll (names : List String) : List (String × PState) :=
  names.map fun n => (n, PState.starting)

lemma pstep_ne_starting (s : PState) (e : PEvent) :
    pstep s e = .starting → s = .starting := by
  cases s <;> cases e <;> decide

lemma pstep_to_ready (s : PState) (e : PEvent) :
    pstep s e = .ready → s = .starting ∨ s = .ready := by
  cases s <;> cases e <;> decide

lemma readyEntries_of_ne_starting (es : List PEvent) (s : PState)
    (h : s ≠ .starting) : readyEntries s es = 0 := by
  induction es generalizing s with
  | nil => rfl
  | cons e es ih =>
    have h1 : pstep s e ≠ .starting := fun hc => h (pstep_ne_starting s e hc)
    have h2 : ¬(s ≠ PState.ready ∧ pstep s e = PState.ready) := by
      rintro ⟨hne, hr⟩
      rcases pstep_to_ready s e hr with h3 | h3
      · exact h h3
      · exact hne h3
    simp [readyEntries, h2, ih (pstep s e) h1]

lemma readyEntries_le_one (es : List PEvent) (s : PState) :
    readyEntries s es ≤ 1 := by
  induction es generalizing s with
  | nil => exact Nat.zero_le 1
  | cons e es ih =>
    by_cases hr : s ≠ PState.ready ∧ pstep s e = PState.ready
    · have h0 : readyEntries PState.ready es = 0 :=
        readyEntries_of_ne_starting es PState.ready (by decide)
      simp [readyEntries, hr, hr.2, h0]
    · simp only [readyEntries, if_neg hr, Nat.zero_add]
      exact ih (pstep s e)

lemma startAll_filter_length (names : List String) (n : String)
    (h : names.Nodup) (hn : n ∈ names) :
    ((startAll names).filter fun en => en.1 = n).length = 1 := by
  induction names with
  | nil => cases hn
  | cons m ms ih =>
    rcases List.nodup_cons.mp h with ⟨hm, hms⟩
    by_cases he : m = n
    · subst he
      have hrest : ((startAll ms).filter fun en => en.1 = m) = [] := by
        rw [List.filter_eq_nil_iff]
        intro en hen
        rcases List.mem_map.mp hen with ⟨k, hk, rfl⟩
        simp only [decide_eq_true_eq]
        intro hkm
        exact hm (hkm ▸ hk)
      simp [startAll, List.filter_cons, hrest]
      intro a ha hamem
      exact hm (hamem ▸ ha)
    · have hn2 : n ∈ ms := by
        rcases List.mem_cons.mp hn with h1 | h1
        · exact absurd h1.symm he
        · exact h1
      simpa [startAll, List.filter_cons, he] using ih hms hn2

/-- C7: for distinct provider names, `startAll` creates exactly one handle
per provider; along every event trace a handle transitions into ready at
most once; and dead is terminal — no trace of further events moves a dead
handle out of dead, so a dead handle is never reused. -/
theorem C7_handle_lifecycle (names : List String) (n : String)
    (h : names.Nodup) (hn : n ∈ names) (es es2 : List PEvent) :
    ((startAll names).filter fun en => en.1 = n).length = 1 ∧
    readyEntries .starting es ≤ 1 ∧
    runP .dead es2 = .dead := by
  refine ⟨startAll_filter_length names n h hn, readyEntries_le_one es _, ?_⟩
  induction es2 with
  | nil => rfl
  | cons e es2 ih =>
    show runP (pstep .dead e) es2 = .dead
    have hd : pstep .dead e = .dead := by cases e <;> rfl
    rw [hd]
    exact ih

/-- Witness for C7: two providers, a trace that confirms launch twice and
then kills the handle, and further events on the dead handle. -/
theorem C7_witness :
    ((startAll ["alpha", "beta"]).filter fun en => en.1 = "alpha").length = 1 ∧
    readyEntries .starting
      [.launchConfirmed, .launchConfirmed, .ioError, .launchConfirmed] ≤ 1 ∧
    runP .dead [.launchConfirmed, .terminationRequested] = .dead :=
  C7_handle_lifecycle ["alpha", "beta"] "alpha" (by decide) (by decide)
    [.launchConfirmed, .launchConfirmed, .ioError, .launchConfirmed]
    [.launchConfirmed, .terminationRequested]

/-- Modelled from the spec: how a child reacts to the cooperative
termination request of `shutdownAll` — the delay after which it exits
voluntarily, or none if it ignores the request. -/
structure ChildBehavior where
  voluntaryExitTime : Option Nat
deriving Repr, DecidableEq

/-- The time the supervisor spends waiting on one child: its voluntary
exit delay, capped by the grace period. -/
def waitTime (graceMs : Nat) (b : ChildBehavior) : Nat :=
  match b.voluntaryExitTime with
  | some t => min t graceMs
  | none => graceMs

/-- Modelled from the spec: `shutdownAll(graceMs)` requests cooperative
termination of every non-dead handle, waits up to `graceMs` for voluntary
exit, then forces termination of any still-alive handle.  Returns the
final handle states together with the elapsed time (the bounded wait plus
a forced-termination margin when some child ignored the request). -/
def shutdownAll (graceMs forcedMargin : Nat)
    (hs : List (PState × ChildBehavior)) : List PState × Nat :=
  let afterRequest := hs.map fun h => (pstep h.1 .terminationRequested, h.2)
  let afterGrace := afterRequest.map fun h =>
    match h.2.voluntaryExitTime with
    | some t => if t ≤ graceMs then (pstep h.1 .exited, h.2) else h
    | none => h
  let anyAlive := afterGrace.any fun h => h.1 ≠ PState.dead
  let final := afterGrace.map fun h => pstep h.1 .exited
  let waited := (afterRequest.map fun h => waitTime graceMs h.2).foldr max 0
  (final, waited + (if anyAlive then forcedMargin else 0))

lemma foldr_max_le (l : List Nat) (m : Nat) (h : ∀ x ∈ l, x ≤ m) :
    l.foldr max 0 ≤ m := by
  induction l with
  | nil => exact Nat.zero_le m
  | cons x xs ih =>
    simp only [List.foldr_cons]
    exact max_le (h x (List.mem_cons_self x xs))
      (ih fun y hy => h y (List.mem_cons_of_mem x hy))

/-- C8: `shutdownAll` returns with every handle dead — the forced step
kills any child that ignored cooperative termination — and the elapsed
time is at most the grace period plus the bounded forced-termination
margin, whatever the handles and child behaviors; in particular it never
hangs indefinitely. -/
theorem C8_shutdownAll_terminates (graceMs forcedMargin : Nat)
    (hs : List (PState × ChildBehavior)) :
    (∀ s ∈ (shutdownAll graceMs forcedMargin hs).1, s = PState.dead) ∧
    (shutdownAll graceMs forcedMargin hs).2 ≤ graceMs + forcedMargin := by
  constructor
  · intro s hs2
    simp only [shutdownAll] at hs2
    rcases List.mem_map.mp hs2 with ⟨h2, _, rfl⟩
    cases h2.1 <;> rfl
  · simp only [shutdownAll]
    apply Nat.add_le_add
    · apply foldr_max_le
      intro x hx
      rcases List.mem_map.mp hx with ⟨h2, _, rfl⟩
      cases ht : h2.2.voluntaryExitTime with
      | some t => simp [waitTime, ht]
      | none => simp [waitTime, ht]
    · split
      · exact Nat.le_refl forcedMargin
      · exact Nat.zero_le forcedMargin

/-- Witness for C8: a grace period of 5000ms over one cooperative child
and one that ignores termination; both end dead and the elapsed time is
within the grace period plus a 100ms forced margin. -/
theorem C8_witness :
    (shutdownAll 5000 100 [(PState.ready, ⟨some 10⟩),
        (PState.ready, ⟨none⟩)]).1.headI = PState.dead ∧
    (shutdownAll 5000 100 [(PState.ready, ⟨some 10⟩),
        (PState.ready, ⟨none⟩)]).2 ≤ 5100 := by
  have h := C8_shutdownAll_terminates 5000 100
    [(PState.ready, ⟨some 10⟩), (PState.ready, ⟨none⟩)]
  exact ⟨h.1 _ (by decide), by simpa using h.2⟩

/-! ## Orchestration engine

Modelled from the spec (section 4.4): the chat route and engine code are
not in the repository source tree, only their registration in server.ts. -/

/-- Modelled from the spec: a tool invocation requested by the model. -/
structure ToolInvocation where
  toolName : String
  args : String
deriving Repr, DecidableEq

/-- Modelled from the spec: a ToolResult carries a success payload or a
typed error code, tagged with the invocation it answers. -/
inductive ToolResult
  | success (inv : ToolInvocation) (payload : String)
  | failure (inv : ToolInvocation) (code : String)
deriving Repr, DecidableEq

/-- Modelled from the spec: one round trip to the language-model client
returns either a final message or a list of requested tool invocations. -/
inductive ModelResponse
  | finalMessage (content : String)
  | toolCalls (invs : List ToolInvocation)

/-- The Tool Registry snapshot: tool name to owning process name. -/
abbrev Registry := List (String × String)

/-- The typed outcome of one `tools/call` against an owning process:
payload or error code. -/
abbrev McpCall := String → String → String → Except String String

/-- Modelled from the spec: dispatching one invocation — resolve its tool
name against the Registry; a name not present fails that invocation with
TOOL_NOT_FOUND; otherwise call the owning process and wrap its payload or
typed error. -/
def dispatchOne (reg : Registry) (mcp : McpCall) (inv : ToolInvocation) :
    ToolResult :=
  match reg.find? fun t => t.1 = inv.toolName with
  | none => .failure inv "TOOL_NOT_FOUND"
  | some t =>
    match mcp t.2 inv.toolName inv.args with
    | .ok payload => .success inv payload
    | .error code => .failure inv code

/-- Modelled from the spec: a DispatchTools round executes the
invocations sequentially, producing one result per invocation. -/
def dispatchRound (reg : Registry) (mcp : McpCall)
    (invs : List ToolInvocation) : List ToolResult :=
  invs.map (dispatchOne reg mcp)

/-- Outcome of one chat request: terminal message or the dedicated
iteration-cap error. -/
inductive ChatOutcome
  | done (content : String)
  | failedIterationCap
deriving Repr, DecidableEq

/-- Modelled from the spec: the AwaitModel/DispatchTools cycle with a hard
iteration cap.  `model` gives the response of each numbered round; the
accumulator collects the tool-result messages appended between rounds.
When the cap is exhausted the request fails with the dedicated
iteration-cap error. -/
def chatLoop (reg : Registry) (mcp : McpCall) (model : Nat → ModelResponse) :
    Nat → Nat → List ToolResult → ChatOutcome × List ToolResult
  | 0, _, acc => (.failedIterationCap, acc)
  | cap + 1, round, acc =>
    match model round with
    | .finalMessage m => (.done m, acc)
    | .toolCalls invs =>
      chatLoop reg mcp model cap (round + 1) (acc ++ dispatchRound reg mcp invs)

/-- C3: the AwaitModel/DispatchTools cycle runs at most the configured
iteration cap of rounds: when the model requests tool invocations in
every round, the engine ends in the dedicated iteration-cap failure
instead of looping without bound. -/
theorem C3_iteration_cap_bounds_loop (reg : Registry) (mcp : McpCall)
    (model : Nat → ModelResponse) (cap round : Nat) (acc : List ToolResult)
    (h : ∀ n, ∃ invs, model n = ModelResponse.toolCalls invs) :
    (chatLoop reg mcp model cap round acc).1 = ChatOutcome.failedIterationCap := by
  induction cap generalizing round acc with
  | zero => rfl
  | succ k ih =>
    rcases h round with ⟨invs, hm⟩
    show (match model round with
          | ModelResponse.finalMessage m => (ChatOutcome.done m, acc)
          | ModelResponse.toolCalls invs =>
            chatLoop reg mcp model k (round + 1)
              (acc ++ dispatchRound reg mcp invs)).1 = _
    rw [hm]
    exact ih (round + 1) (acc ++ dispatchRound reg mcp invs)

/-- Witness for C3: a model that requests the same tool in every round is
stopped by a cap of 3 rounds. -/
theorem C3_witness :
    (chatLoop [] (fun _ _ _ => Except.ok "")
      (fun _ => ModelResponse.toolCalls [⟨"t", "x"⟩]) 3 0 []).1
      = ChatOutcome.failedIterationCap :=
  C3_iteration_cap_bounds_loop [] (fun _ _ _ => Except.ok "")
    (fun _ => ModelResponse.toolCalls [⟨"t", "x"⟩]) 3 0 []
    (fun _ => ⟨[⟨"t", "x"⟩], rfl⟩)

/-- C9: in a round whose invocations include one naming an unregistered
tool, that invocation alone fails with a TOOL_NOT_FOUND result, every
invocation of the round still gets its own result appended, and the chat
request is not terminated: the loop returns to AwaitModel and ends with
the final message of the next round. -/
theorem C9_tool_not_found_is_local (reg : Registry) (mcp : McpCall)
    (model : Nat → ModelResponse) (invs : List ToolInvocation)
    (bad : ToolInvocation) (round cap : Nat) (m : String) (acc : List ToolResult)
    (h0 : model round = ModelResponse.toolCalls invs)
    (h1 : model (round + 1) = ModelResponse.finalMessage m)
    (hbad : bad ∈ invs)
    (hnot : (reg.find? fun t => t.1 = bad.toolName) = none) :
    chatLoop reg mcp model (cap + 2) round acc
      = (ChatOutcome.done m, acc ++ dispatchRound reg mcp invs) ∧
    dispatchOne reg mcp bad = ToolResult.failure bad "TOOL_NOT_FOUND" ∧
    (dispatchRound reg mcp invs).length = invs.length ∧
    ToolResult.failure bad "TOOL_NOT_FOUND" ∈ acc ++ dispatchRound reg mcp invs := by
  have hone : dispatchOne reg mcp bad = ToolResult.failure bad "TOOL_NOT_FOUND" := by
    simp [dispatchOne, hnot]
  refine ⟨?_, hone, List.length_map invs _, ?_⟩
  · show (match model round with
          | ModelResponse.finalMessage m2 => (ChatOutcome.done m2, acc)
          | ModelResponse.toolCalls invs2 =>
            chatLoop reg mcp model (cap + 1) (round + 1)
              (acc ++ dispatchRound reg mcp invs2)) = _
    rw [h0]
    show (match model (round + 1) with
          | ModelResponse.finalMessage m2 =>
            (ChatOutcome.done m2, acc ++ dispatchRound reg mcp invs)
          | ModelResponse.toolCalls invs2 =>
            chatLoop reg mcp model cap (round + 2)
              ((acc ++ dispatchRound reg mcp invs) ++ dispatchRound reg mcp invs2)) = _
    rw [h1]
  · apply List.mem_append_right
    have h := List.mem_map_of_mem (dispatchOne reg mcp) hbad
    rw [hone] at h
    exact h

/-- Witness for C9: a round with a registered and an unregistered tool;
the unregistered one fails with TOOL_NOT_FOUND, both get results, and the
request finishes with the final message of the following round. -/
theorem C9_witness :
    chatLoop [("calc", "mcp1")] (fun _ _ _ => Except.ok "2")
      (fun n => if n = 0
        then ModelResponse.toolCalls [⟨"calc", "1+1"⟩, ⟨"ghost", ""⟩]
        else ModelResponse.finalMessage "done") 2 0 []
      = (ChatOutcome.done "done",
         [ToolResult.success ⟨"calc", "1+1"⟩ "2",
          ToolResult.failure ⟨"ghost", ""⟩ "TOOL_NOT_FOUND"]) ∧
    ToolResult.failure ⟨"ghost", ""⟩ "TOOL_NOT_FOUND"
      ∈ ([] : List ToolResult) ++ dispatchRound [("calc", "mcp1")]
          (fun _ _ _ => Except.ok "2") [⟨"calc", "1+1"⟩, ⟨"ghost", ""⟩] := by
  have h := C9_tool_not_found_is_local [("calc", "mcp1")]
    (fun _ _ _ => Except.ok "2")
    (fun n => if n = 0
      then ModelResponse.toolCalls [⟨"calc", "1+1"⟩, ⟨"ghost", ""⟩]
      else ModelResponse.finalMessage "done")
    [⟨"calc", "1+1"⟩, ⟨"ghost", ""⟩] ⟨"ghost", ""⟩ 0 0 "done" []
    rfl rfl (by decide) rfl
  refine ⟨?_, h.2.2.2⟩
  rw [h.1]
  rfl

end LLMO
